import Mathlib

/-!
Verification of the storage driver abstraction layer
(`docker_registry/core/driver.py`) of the docker-registry repository.

The Python module is shallowly embedded below.  Python 2 byte strings are
modelled as Lean `String` values (all identifiers of interest are ASCII);
raw byte content is modelled as `List Nat`; fallible operations return
`Option` or `Except`.  Stateful pieces (the scheme binding performed by
`fetch`, the backing store behind a driver) are modelled by explicit state
passing.
-/

/-! ## Python values

`check` begins with `value = str(value)`.  The only non-string Python value
the claims exercise is `None`, whose `str` form is the literal `"None"`, so
a tiny sum type of Python values suffices. -/

/-- A Python value as it may be handed to the path helpers: either a byte
string or the constant `None`. -/
inductive PyVal where
  | str (s : String)
  | pynone
deriving DecidableEq

/-- Python `str(value)` on a `PyVal` (`str(None)` is the literal `"None"`). -/
def pyStr : PyVal → String
  | .str s => s
  | .pynone => "None"

/-! ## `urllib.quote_plus` (Python 2 standard library, called by `check`)

`quote_plus` leaves the always-safe characters (ASCII letters, digits,
`_`, `.`, `-`) unchanged, turns a space into `+`, and replaces every other
byte by `%` followed by two uppercase hexadecimal digits. -/

/-- The characters Python 2 `urllib.quote` never escapes
(`always_safe`: ASCII letters, digits, underscore, dot, dash). -/
def alwaysSafe (c : Char) : Bool :=
  c.isAlpha || c.isDigit || c == '_' || c == '.' || c == '-'

/-- Uppercase hexadecimal digit for a value below 16 (used by the
percent-encoder, which prints `%XX` with uppercase digits). -/
def hexUpper (n : Nat) : Char :=
  if n = 0 then '0' else if n = 1 then '1' else if n = 2 then '2'
  else if n = 3 then '3' else if n = 4 then '4' else if n = 5 then '5'
  else if n = 6 then '6' else if n = 7 then '7' else if n = 8 then '8'
  else if n = 9 then '9' else if n = 10 then 'A' else if n = 11 then 'B'
  else if n = 12 then 'C' else if n = 13 then 'D' else if n = 14 then 'E'
  else 'F'

/-- Per-character behaviour of `urllib.quote_plus`: space becomes `+`,
always-safe characters are kept, anything else is percent-encoded. -/
def quotePlusChar (c : Char) : List Char :=
  if c == ' ' then ['+']
  else if alwaysSafe c then [c]
  else ['%', hexUpper (c.toNat / 16 % 16), hexUpper (c.toNat % 16)]

/-- `urllib.quote_plus` with its default empty `safe` argument, as `check`
calls it. -/
def quote_plus (s : String) : String :=
  ⟨(s.data.map quotePlusChar).flatten⟩

/-! ## `check` (driver.py lines 44-50) and the `filter_args` decorator

```python
def check(value):
    value = str(value)
    if value == '..':
        value = '%2E%2E'
    if value == '.':
        value = '%2E'
    return urllib.quote_plus(value)
```

`filter_args` (lines 53-63) applies `check` to every positional argument
after `self` and to every keyword argument before calling the wrapped
method.  In the embedding each decorated method applies `check` to its own
parameters directly; an argument a decorated method forwards to another
decorated method is therefore checked again, exactly as in the source. -/

/-- `check` from driver.py: stringify, substitute the two literal
traversal tokens, then percent-encode the result with `quote_plus`. -/
def check (v : PyVal) : String :=
  let value := pyStr v
  let value := if value = ".." then "%2E%2E" else value
  let value := if value = "." then "%2E" else value
  quote_plus value

/-- The sanitizer as a decorated inner call sees it: `filter_args` checks
the argument at the outer decorated method, and a second decorated method
receiving the result checks it once more. -/
def checkTwice (v : PyVal) : String :=
  check (.str (check v))

/-! ## `FileStorage` path helpers (driver.py lines 183-264)

`self.repositories = 'repositories'` and `self.images = 'images'`.  Every
helper below carries `@filter_args`.  The second definition of
`_repository_path` (lines 229-232, the one that is decorated) is the one
that is live on the class, and the repository-level helpers call it with
keyword arguments, so those arguments pass through `check` a second
time. -/

/-- `FileStorage._repository_path` (decorated): its own arguments go
through `check` once inside the decorator. -/
def repository_path (nspace repository : PyVal) : String :=
  "repositories/" ++ check nspace ++ "/" ++ check repository

/-- `FileStorage.tag_path`.  The decorator checks the supplied arguments
(`tagname` only when it is actually passed); the body forwards namespace
and repository to the decorated `_repository_path`, and returns the
repository path when the checked tag name is falsy (empty). -/
def tag_path (nspace repository : PyVal) (tagname : Option PyVal) : String :=
  let ns := check nspace
  let repo := check repository
  let tag := tagname.map check
  let repositoryPath := repository_path (.str ns) (.str repo)
  match tag with
  | none => repositoryPath
  | some t => if t = "" then repositoryPath else repositoryPath ++ "/tag_" ++ t

/-- `FileStorage._images_list_path`. -/
def images_list_path (nspace repository : PyVal) : String :=
  repository_path (.str (check nspace)) (.str (check repository)) ++ "/_images_list"

/-- `FileStorage.repository_json_path`. -/
def repository_json_path (nspace repository : PyVal) : String :=
  repository_path (.str (check nspace)) (.str (check repository)) ++ "/json"

/-- `FileStorage.repository_tag_json_path`. -/
def repository_tag_json_path (nspace repository tag : PyVal) : String :=
  repository_path (.str (check nspace)) (.str (check repository))
    ++ "/tag" ++ check tag ++ "_json"

/-- `FileStorage.index_images_path`. -/
def index_images_path (nspace repository : PyVal) : String :=
  repository_path (.str (check nspace)) (.str (check repository)) ++ "/_index_images"

/-- `FileStorage.private_flag_path`. -/
def private_flag_path (nspace repository : PyVal) : String :=
  repository_path (.str (check nspace)) (.str (check repository)) ++ "/_private"

/-- `FileStorage._image_json_path`. -/
def image_json_path (image : PyVal) : String :=
  "images/" ++ check image ++ "/json"

/-- `FileStorage._image_mark_path` (the in-progress marker path). -/
def image_mark_path (image : PyVal) : String :=
  "images/" ++ check image ++ "/_inprogress"

/-- `FileStorage._image_checksum_path`. -/
def image_checksum_path (image : PyVal) : String :=
  "images/" ++ check image ++ "/_checksum"

/-- `FileStorage._image_layer_path`. -/
def image_layer_path (image : PyVal) : String :=
  "images/" ++ check image ++ "/layer"

/-- `FileStorage._image_ancestry_path`. -/
def image_ancestry_path (image : PyVal) : String :=
  "images/" ++ check image ++ "/ancestry"

/-- `FileStorage._image_files_path`. -/
def image_files_path (image : PyVal) : String :=
  "images/" ++ check image ++ "/_files"

/-- `FileStorage._image_diff_path`. -/
def image_diff_path (image : PyVal) : String :=
  "images/" ++ check image ++ "/_diff"

/-! ## `image_exists` (driver.py lines 337-338)

```python
def image_exists(self, image):
    return self._exists(path=self._image_mark_path(image=image))
```

`_exists` is an abstract backend primitive; it is modelled as a function
from paths to booleans describing which paths the backing store holds. -/

/-- `FileStorage.image_exists`, parametrised by the backend `_exists`
primitive. -/
def image_exists (exMark : String → Bool) (image : PyVal) : Bool :=
  exMark (image_mark_path image)

/-! ## The driver registry: `fetch` and `available` (driver.py lines 353-374)

The set of installed driver modules (what `__import__` can resolve and
what `pkgutil.iter_modules` reports under `docker_registry.drivers`) is
modelled as a list of module names.  The class attribute
`module.Storage.scheme` that `fetch` assigns is modelled as a map from
module name to the optionally bound scheme; the `assignments` field of the
outcome records the binding assignments the call actually executed (line
368 runs on every successful call). -/

/-- The contract error taxonomy. -/
inductive DriverError where
  | notImplemented (msg : String)
  | notFound
deriving DecidableEq

/-- `available()`: the names of the discoverable driver modules. -/
def available (env : List String) : List String :=
  env

/-- Python `str` of a list of strings, as `"%s" % available()` renders it:
`[\x27a\x27, \x27b\x27]` with single quotes around each element. -/
def reprStrList (l : List String) : String :=
  "[" ++ String.intercalate ", " (l.map (fun s => "\x27" ++ s ++ "\x27")) ++ "]"

/-- The Python 2 `ImportError` text for a missing driver module. -/
def importErrorText (name : String) : String :=
  "No module named " ++ name

/-- The message `fetch` formats on an import failure (driver.py lines
361-367). -/
def fetchErrorMsg (env : List String) (name : String) : String :=
  "You requested storage driver docker_registry.drivers." ++ name
    ++ "\nwhich is not installed. Try `pip install docker-registry-driver-" ++ name
    ++ "`\nor check your configuration. The following are currently\navailable on your system: "
    ++ reprStrList (available env)
    ++ ". Exception was: " ++ importErrorText name

/-- Outcome of one `fetch` call: the returned Storage class (identified by
its module name), the scheme-attribute state afterwards, and the binding
assignments executed during the call. -/
structure FetchOutcome where
  result : Except DriverError String
  state : String → Option String
  assignments : List (String × String)

/-- `fetch(name)` (driver.py lines 353-369): import the driver module if
it is installed, assign `module.Storage.scheme = name`, and return the
Storage class; otherwise raise `NotImplementedError` with a message that
embeds `available()`. -/
def fetch (env : List String) (st : String → Option String) (name : String) :
    FetchOutcome :=
  if env.contains name then
    { result := .ok name
      state := fun m => if m = name then some name else st m
      assignments := [(name, name)] }
  else
    { result := .error (.notImplemented (fetchErrorMsg env name))
      state := st
      assignments := [] }

/-! ## Entity enumeration (spec section 4.4)

Modelled from the spec: `iterate_images` and `iterate_repositories` are
not present under `src/`; only the spec describes them.  They are built on
the `list_directory` primitive, modelled as a function from an optional
container path to either the list of child names or a contract error. -/

/-- Modelled from the spec: `iterate_images()` lists the images root and
treats NotFound as the empty sequence. -/
def iterate_images {σ : Type} (listDir : σ → Option String → Except DriverError (List String))
    (st : σ) : Except DriverError (List String) :=
  match listDir st (some "images") with
  | .error .notFound => .ok []
  | .error e => .error e
  | .ok names => .ok names

/-- Modelled from the spec: `iterate_repositories()` lists the
repositories root (NotFound means empty), then lists each namespace;
NotFound for an individual namespace skips that namespace. -/
def iterate_repositories {σ : Type}
    (listDir : σ → Option String → Except DriverError (List String)) (st : σ) :
    Except DriverError (List (String × String)) :=
  match listDir st (some "repositories") with
  | .error .notFound => .ok []
  | .error e => .error e
  | .ok namespaces =>
      namespaces.foldr (fun ns acc =>
        match acc with
        | .error e => .error e
        | .ok rest =>
            match listDir st (some ("repositories/" ++ ns)) with
            | .error .notFound => .ok rest
            | .error e => .error e
            | .ok repos => .ok (repos.map (fun r => (ns, r)) ++ rest)) (.ok [])

/-! ## String helper predicates used by the claims -/

/-- Boolean test that `a` occurs at the front of `b` and is strictly
shorter, on the underlying character lists. -/
def leadsB : List Char → List Char → Bool
  | c :: cs, d :: ds => decide (c = d) && leadsB cs ds
  | [], _ => true
  | _ :: _, [] => false

/-- `a` is a strict prefix of `b` (boolean). -/
def strictPrefixB (a b : String) : Bool :=
  leadsB a.data b.data && decide (a.data.length < b.data.length)

/-- The legal identifier alphabet of the spec: strings over the characters
`quote_plus` treats as always safe (letters, digits, underscore, dot,
dash). -/
def legalId (s : String) : Prop :=
  s.data.all alwaysSafe = true

instance (s : String) : Decidable (legalId s) := by
  unfold legalId; infer_instance

/-! ## Backends used by concrete evaluations -/

/-- A store holding every image path except the in-progress marker of
image `abc123`: the upload completed and the marker was cleared. -/
def markerClearedStore : String → Bool :=
  fun p => !(p == "images/abc123/_inprogress")

/-- A store holding only the in-progress marker of image `abc123`: an
upload that has just begun. -/
def markerOnlyStore : String → Bool :=
  fun p => p == "images/abc123/_inprogress"

/-- Concrete `list_directory` backend: one namespace that was never
created next to one namespace holding a single repository. -/
def twoNamespaceListDir : Unit → Option String → Except DriverError (List String) :=
  fun _ p =>
    match p with
    | some "repositories" => .ok ["nsgone", "nshere"]
    | some "repositories/nshere" => .ok ["app"]
    | _ => .error .notFound

/-! ## UTF-8 codec

Models the `encode('utf8')` / `decode('utf8')` steps of `put_unicode` and
`get_unicode` (driver.py lines 286-290); the codec itself is Python
standard library behaviour, embedded here as the standard UTF-8 byte
scheme over `List Nat`.  The decoder checks lead and continuation byte
ranges (it does not reject overlong or surrogate encodings, which never
arise from the encoder). -/

/-- Encode one character as its UTF-8 bytes. -/
def utf8EncodeChar (c : Char) : List Nat :=
  let n := c.toNat
  if n < 0x80 then [n]
  else if n < 0x800 then [0xC0 + n / 64, 0x80 + n % 64]
  else if n < 0x10000 then
    [0xE0 + n / 4096, 0x80 + n / 64 % 64, 0x80 + n % 64]
  else
    [0xF0 + n / 262144, 0x80 + n / 4096 % 64, 0x80 + n / 64 % 64, 0x80 + n % 64]

/-- `content.encode('utf8')`. -/
def utf8Encode (s : String) : List Nat :=
  (s.data.map utf8EncodeChar).flatten

/-- Continuation byte test. -/
def utf8Cont (b : Nat) : Bool :=
  decide (0x80 ≤ b) && decide (b < 0xC0)

/-- Decode the tail of a two-byte sequence. -/
def utf8DecodeTwo (b0 : Nat) : List Nat → Option (Char × List Nat)
  | b1 :: rest =>
    if utf8Cont b1 then
      some (Char.ofNat ((b0 - 0xC0) * 64 + (b1 - 0x80)), rest)
    else none
  | [] => none

/-- Decode the tail of a three-byte sequence. -/
def utf8DecodeThree (b0 : Nat) : List Nat → Option (Char × List Nat)
  | b1 :: b2 :: rest =>
    if utf8Cont b1 && utf8Cont b2 then
      some (Char.ofNat ((b0 - 0xE0) * 4096 + (b1 - 0x80) * 64 + (b2 - 0x80)), rest)
    else none
  | _ => none

/-- Decode the tail of a four-byte sequence. -/
def utf8DecodeFour (b0 : Nat) : List Nat → Option (Char × List Nat)
  | b1 :: b2 :: b3 :: rest =>
    if utf8Cont b1 && utf8Cont b2 && utf8Cont b3 then
      some (Char.ofNat ((b0 - 0xF0) * 262144 + (b1 - 0x80) * 4096
        + (b2 - 0x80) * 64 + (b3 - 0x80)), rest)
    else none
  | _ => none

/-- Decode one UTF-8 scalar from the front of a byte list. -/
def utf8DecodeOne : List Nat → Option (Char × List Nat)
  | [] => none
  | b0 :: rest =>
    if b0 < 0x80 then some (Char.ofNat b0, rest)
    else if b0 < 0xC0 then none
    else if b0 < 0xE0 then utf8DecodeTwo b0 rest
    else if b0 < 0xF0 then utf8DecodeThree b0 rest
    else if b0 < 0xF8 then utf8DecodeFour b0 rest
    else none

/-- Fuelled decoding loop; one unit of fuel per decoded character. -/
def utf8DecodeAux : Nat → List Nat → Option (List Char)
  | _, [] => some []
  | 0, _ :: _ => none
  | fuel + 1, b0 :: rest0 =>
    match utf8DecodeOne (b0 :: rest0) with
    | none => none
    | some (c, rest) => (utf8DecodeAux fuel rest).map (fun cs => c :: cs)

/-- `bytes.decode('utf8')`, at the character-list level; `none` models the
`UnicodeDecodeError` raised on malformed input.  Each decoded character
consumes at least one byte, so the byte count bounds the fuel. -/
def utf8Decode (l : List Nat) : Option (List Char) :=
  utf8DecodeAux l.length l

/-! ## JSON values and codec

Modelled from the spec: the `json` module used by `get_json` / `put_json`
(driver.py lines 280-284) is external to the repository; the spec only
requires a serialize / deserialize step over the text layer (section 4.3).
The value domain is JSON with integer numbers; objects are ordered lists
of members.  The serializer follows the default Python `json.dumps`
layout (element separator `, `, member separator `: `, two-character
escapes for quote, backslash and common control characters, `\u00XX` for
the remaining control characters); the deserializer is a recursive
descent parser for that grammar. -/

/-- JSON values (numbers restricted to integers). -/
inductive Json where
  | null
  | bool (b : Bool)
  | num (n : Int)
  | str (s : String)
  | arr (elems : List Json)
  | obj (members : List (String × Json))

/-- Decimal digit character. -/
def digitChar (d : Nat) : Char :=
  if d = 0 then '0' else if d = 1 then '1' else if d = 2 then '2'
  else if d = 3 then '3' else if d = 4 then '4' else if d = 5 then '5'
  else if d = 6 then '6' else if d = 7 then '7' else if d = 8 then '8'
  else '9'

/-- Lowercase hexadecimal digit character. -/
def hexDigitChar (d : Nat) : Char :=
  if d = 0 then '0' else if d = 1 then '1' else if d = 2 then '2'
  else if d = 3 then '3' else if d = 4 then '4' else if d = 5 then '5'
  else if d = 6 then '6' else if d = 7 then '7' else if d = 8 then '8'
  else if d = 9 then '9' else if d = 10 then 'a' else if d = 11 then 'b'
  else if d = 12 then 'c' else if d = 13 then 'd' else if d = 14 then 'e'
  else 'f'

/-- Decimal digits of a natural number, most significant first. -/
def natChars (n : Nat) : List Char :=
  if n < 10 then [digitChar n]
  else natChars (n / 10) ++ [digitChar (n % 10)]
decreasing_by exact Nat.div_lt_self (by omega) (by omega)

/-- Number of decimal digits `natChars` produces. -/
def numDigits (n : Nat) : Nat :=
  if n < 10 then 1 else numDigits (n / 10) + 1
decreasing_by exact Nat.div_lt_self (by omega) (by omega)

/-- Decimal rendering of an integer. -/
def intChars (n : Int) : List Char :=
  if n < 0 then '-' :: natChars (-n).toNat else natChars n.toNat

/-- The six-character `\u00XX` escape of a control character code. -/
def uEscape (n : Nat) : List Char :=
  '\\' :: 'u' :: '0' :: '0' :: [hexDigitChar (n / 16), hexDigitChar (n % 16)]

/-- JSON string escape for one character. -/
def escChar (c : Char) : List Char :=
  if c = '\"' then ['\\', '\"']
  else if c = '\\' then ['\\', '\\']
  else if c = '\n' then ['\\', 'n']
  else if c = '\t' then ['\\', 't']
  else if c = '\r' then ['\\', 'r']
  else if c.toNat = 8 then ['\\', 'b']
  else if c.toNat = 12 then ['\\', 'f']
  else if c.toNat < 0x20 then uEscape c.toNat
  else [c]

/-- A JSON string literal: quote, escaped characters, quote. -/
def strChars (s : String) : List Char :=
  '\"' :: (s.data.map escChar).flatten ++ ['\"']

/-- Characters of the `null` literal. -/
def nullChars : List Char :=
  ['n', 'u', 'l', 'l']

/-- Characters of the `true` literal. -/
def trueChars : List Char :=
  ['t', 'r', 'u', 'e']

/-- Characters of the `false` literal. -/
def falseChars : List Char :=
  ['f', 'a', 'l', 's', 'e']

mutual

/-- Serialize a JSON value (the character list of `json.dumps`). -/
def dumpChars : Json → List Char
  | .null => nullChars
  | .bool true => trueChars
  | .bool false => falseChars
  | .num n => intChars n
  | .str s => strChars s
  | .arr elems => '[' :: dumpElems elems ++ [']']
  | .obj members => '\x7b' :: dumpMembers members ++ ['\x7d']

/-- Serialize array elements, separated by `, `. -/
def dumpElems : List Json → List Char
  | [] => []
  | [x] => dumpChars x
  | x :: y :: xs => dumpChars x ++ ',' :: ' ' :: dumpElems (y :: xs)

/-- Serialize object members, `"key": value` separated by `, `. -/
def dumpMembers : List (String × Json) → List Char
  | [] => []
  | [(k, v)] => strChars k ++ ':' :: ' ' :: dumpChars v
  | (k, v) :: m :: ms =>
      strChars k ++ ':' :: ' ' :: dumpChars v ++ ',' :: ' ' :: dumpMembers (m :: ms)

end

/-- JSON whitespace. -/
def isWsChar (c : Char) : Bool :=
  c == ' ' || c == '\n' || c == '\t' || c == '\r'

/-- Drop leading JSON whitespace. -/
def skipWs : List Char → List Char
  | [] => []
  | c :: rest => if isWsChar c then skipWs rest else c :: rest

/-- Value of a hexadecimal digit character. -/
def hexVal (c : Char) : Option Nat :=
  if c.isDigit then some (c.toNat - 48)
  else if 'a' ≤ c ∧ c ≤ 'f' then some (c.toNat - 87)
  else if 'A' ≤ c ∧ c ≤ 'F' then some (c.toNat - 55)
  else none

/-- Decode one string escape (the characters after a backslash). -/
def escDecode : List Char → Option (Char × List Char)
  | 'n' :: r => some ('\n', r)
  | 't' :: r => some ('\t', r)
  | 'r' :: r => some ('\r', r)
  | 'b' :: r => some (Char.ofNat 8, r)
  | 'f' :: r => some (Char.ofNat 12, r)
  | '\"' :: r => some ('\"', r)
  | '\\' :: r => some ('\\', r)
  | '/' :: r => some ('/', r)
  | 'u' :: a :: b :: e :: d :: r =>
    (hexVal a).bind (fun va =>
      (hexVal b).bind (fun vb =>
        (hexVal e).bind (fun ve =>
          (hexVal d).bind (fun vd =>
            some (Char.ofNat (va * 4096 + vb * 256 + ve * 16 + vd), r)))))
  | _ => none

/-- Fuelled parse of a JSON string body (after the opening quote), up to
and including the closing quote; one unit of fuel per produced
character. -/
def parseStrAux : Nat → List Char → Option (List Char × List Char)
  | _, [] => none
  | 0, _ :: _ => none
  | fuel + 1, c :: rest =>
    if c = '\"' then some ([], rest)
    else if c = '\\' then
      match escDecode rest with
      | none => none
      | some (e, r) => (parseStrAux fuel r).map (fun p => (e :: p.1, p.2))
    else (parseStrAux fuel rest).map (fun p => (c :: p.1, p.2))

/-- Parse a JSON string body; every step consumes input, so the input
length bounds the fuel. -/
def parseStr (l : List Char) : Option (List Char × List Char) :=
  parseStrAux (l.length + 1) l

/-- Parse a run of decimal digits into an accumulator, stopping at the
first non-digit. -/
def parseNatAux : Nat → List Char → Nat × List Char
  | acc, [] => (acc, [])
  | acc, c :: rest =>
    if c.isDigit then parseNatAux (acc * 10 + (c.toNat - 48)) rest
    else (acc, c :: rest)

/-- Parse the tail of the literal `null`. -/
def litNull : List Char → Option (Json × List Char)
  | 'u' :: 'l' :: 'l' :: r => some (.null, r)
  | _ => none

/-- Parse the tail of the literal `true`. -/
def litTrue : List Char → Option (Json × List Char)
  | 'r' :: 'u' :: 'e' :: r => some (.bool true, r)
  | _ => none

/-- Parse the tail of the literal `false`. -/
def litFalse : List Char → Option (Json × List Char)
  | 'a' :: 'l' :: 's' :: 'e' :: r => some (.bool false, r)
  | _ => none

/-- Parse the digits of a negative number (after the minus sign). -/
def parseNumNeg : List Char → Option (Json × List Char)
  | [] => none
  | d :: r =>
    if d.isDigit then
      some (.num (-((parseNatAux 0 (d :: r)).1 : Int)), (parseNatAux 0 (d :: r)).2)
    else none

mutual

/-- Parse one JSON value; the fuel bounds the recursion depth and element
count, decreasing on every inner call. -/
def parseValue : Nat → List Char → Option (Json × List Char)
  | 0, _ => none
  | _ + 1, [] => none
  | fuel + 1, c :: rest =>
    if c = 'n' then litNull rest
    else if c = 't' then litTrue rest
    else if c = 'f' then litFalse rest
    else if c = '\"' then (parseStr rest).map (fun p => (.str ⟨p.1⟩, p.2))
    else if c = '[' then parseArrTail fuel (skipWs rest)
    else if c = '\x7b' then parseObjTail fuel (skipWs rest)
    else if c = '-' then parseNumNeg rest
    else if c.isDigit then
      some (.num ((parseNatAux 0 (c :: rest)).1 : Int), (parseNatAux 0 (c :: rest)).2)
    else none

/-- Parse what follows an opening bracket: `]` or the elements. -/
def parseArrTail : Nat → List Char → Option (Json × List Char)
  | 0, _ => none
  | _ + 1, [] => none
  | fuel + 1, d :: r =>
    if d = ']' then some (.arr [], r)
    else (parseElems fuel (d :: r)).map (fun p => (.arr p.1, p.2))

/-- Parse what follows an opening brace: `\x7d` or the members. -/
def parseObjTail : Nat → List Char → Option (Json × List Char)
  | 0, _ => none
  | _ + 1, [] => none
  | fuel + 1, d :: r =>
    if d = '\x7d' then some (.obj [], r)
    else (parseMembers fuel (d :: r)).map (fun p => (.obj p.1, p.2))

/-- Parse the elements of a non-empty array, consuming the closing `]`. -/
def parseElems : Nat → List Char → Option (List Json × List Char)
  | 0, _ => none
  | fuel + 1, input =>
    (parseValue fuel input).bind (fun p => parseElemsSep fuel p.1 (skipWs p.2))

/-- After one array element: close with `]` or continue after `,`. -/
def parseElemsSep : Nat → Json → List Char → Option (List Json × List Char)
  | 0, _, _ => none
  | _ + 1, _, [] => none
  | fuel + 1, x, d :: r =>
    if d = ']' then some ([x], r)
    else if d = ',' then (parseElems fuel (skipWs r)).map (fun q => (x :: q.1, q.2))
    else none

/-- Parse the members of a non-empty object, consuming the closing
brace. -/
def parseMembers : Nat → List Char → Option (List (String × Json) × List Char)
  | 0, _ => none
  | _ + 1, [] => none
  | fuel + 1, c :: rest =>
    if c = '\"' then
      (parseStr rest).bind (fun kp => parseMemberColon fuel ⟨kp.1⟩ (skipWs kp.2))
    else none

/-- After a member key: expect `:` and the member value. -/
def parseMemberColon : Nat → String → List Char → Option (List (String × Json) × List Char)
  | 0, _, _ => none
  | _ + 1, _, [] => none
  | fuel + 1, k, d :: r =>
    if d = ':' then
      (parseValue fuel (skipWs r)).bind (fun vp => parseMembersSep fuel k vp.1 (skipWs vp.2))
    else none

/-- After one member: close with `\x7d` or continue after `,`. -/
def parseMembersSep : Nat → String → Json → List Char → Option (List (String × Json) × List Char)
  | 0, _, _, _ => none
  | _ + 1, _, _, [] => none
  | fuel + 1, k, v, d :: r =>
    if d = '\x7d' then some ([(k, v)], r)
    else if d = ',' then
      (parseMembers fuel (skipWs r)).map (fun q => ((k, v) :: q.1, q.2))
    else none

end

/-- `json.dumps`. -/
def json_dumps (j : Json) : String :=
  ⟨dumpChars j⟩

/-- `json.loads`; `none` models the `ValueError` raised on malformed
input.  Parsing consumes input on every step, so twice the input length
(plus slack) bounds the fuel. -/
def json_loads (s : String) : Option Json :=
  match parseValue (2 * s.data.length + 2) (skipWs s.data) with
  | some (j, rest) => if skipWs rest = [] then some j else none
  | none => none

/-! ## The byte-level storage contract and the derived text and JSON layer
(driver.py lines 280-296) -/

/-- A backend supplying the two byte-level primitives `put_content` and
`get_content` over some state type; `none` from `get_content` models
NotFound. -/
structure Backend (σ : Type) where
  put_content : σ → String → List Nat → σ
  get_content : σ → String → Option (List Nat)

/-- `FileStorage.get_bytes`: delegates to `get_content`. -/
def get_bytes {σ : Type} (B : Backend σ) (st : σ) (path : String) : Option (List Nat) :=
  B.get_content st path

/-- `FileStorage.put_bytes`: delegates to `put_content`. -/
def put_bytes {σ : Type} (B : Backend σ) (st : σ) (path : String) (content : List Nat) : σ :=
  B.put_content st path content

/-- `FileStorage.get_unicode`: `self.get_bytes(path).decode('utf8')`. -/
def get_unicode {σ : Type} (B : Backend σ) (st : σ) (path : String) : Option String :=
  (get_bytes B st path).bind (fun bs => (utf8Decode bs).map (fun cs => (⟨cs⟩ : String)))

/-- `FileStorage.put_unicode`: `self.put_bytes(path, content.encode('utf8'))`. -/
def put_unicode {σ : Type} (B : Backend σ) (st : σ) (path : String) (content : String) : σ :=
  put_bytes B st path (utf8Encode content)

/-- `FileStorage.get_json`: `json.loads(self.get_unicode(path))`. -/
def get_json {σ : Type} (B : Backend σ) (st : σ) (path : String) : Option Json :=
  (get_unicode B st path).bind json_loads

/-- `FileStorage.put_json`: `self.put_unicode(path, json.dumps(content))`. -/
def put_json {σ : Type} (B : Backend σ) (st : σ) (path : String) (content : Json) : σ :=
  put_unicode B st path (json_dumps content)

/-- A concrete association-list backend used by the round-trip witness. -/
def listBackend : Backend (List (String × List Nat)) :=
  { put_content := fun st p c => (p, c) :: st
    get_content := fun st p => (st.find? (fun e => e.1 == p)).map (fun e => e.2) }

/-! ## Size measures used to budget the parser fuel -/

mutual

/-- Fuel needed to parse a serialized value. -/
def jsize : Json → Nat
  | .null => 1
  | .bool _ => 1
  | .num _ => 1
  | .str _ => 1
  | .arr elems => 2 + jsizeList elems
  | .obj members => 2 + jsizeMembers members

/-- Fuel needed to parse serialized array elements. -/
def jsizeList : List Json → Nat
  | [] => 0
  | x :: xs => 2 + jsize x + jsizeList xs

/-- Fuel needed to parse serialized object members. -/
def jsizeMembers : List (String × Json) → Nat
  | [] => 0
  | (_, v) :: ms => 3 + jsize v + jsizeMembers ms

end

/-- The suffix following a serialized value never starts with a digit (it
is empty or starts with a separator or closing bracket); this keeps the
number parser from consuming past the value. -/
def nonDigitHead (l : List Char) : Prop :=
  ∀ d r, l = d :: r → d.isDigit = false

/-- The characters a serialized JSON value can start with. -/
def goodStarter (c : Char) : Bool :=
  c == 'n' || c == 't' || c == 'f' || c == '\"' || c == '[' || c == '\x7b'
    || c == '-' || c.isDigit

/-! ## Helper lemmas -/

theorem data_append (s t : String) : (s ++ t).data = s.data ++ t.data := by
  cases s; cases t; rfl

theorem append_assoc_str (a b c : String) : a ++ b ++ c = a ++ (b ++ c) := by
  cases a; cases b; cases c
  show String.mk _ = String.mk _
  simp [String.append]

theorem flatten_quotePlusChar (l : List Char) (h : l.all alwaysSafe = true) :
    (l.map quotePlusChar).flatten = l := by
  induction l with
  | nil => rfl
  | cons c cs ih =>
    simp only [List.all_cons, Bool.and_eq_true] at h
    have hsp : (c == ' ') = false := by
      cases hval : c == ' ' with
      | false => rfl
      | true =>
          have : c = ' ' := beq_iff_eq.mp hval
          subst this
          exact absurd h.1 (by decide)
    have hc : quotePlusChar c = [c] := by
      unfold quotePlusChar
      rw [hsp, h.1]
      simp
    simp [hc, ih h.2]

theorem quotePlus_id (s : String) (h : legalId s) : quote_plus s = s := by
  unfold legalId at h
  unfold quote_plus
  rw [flatten_quotePlusChar s.data h]

theorem check_eq_self (s : String) (h : legalId s) (h1 : s ≠ ".") (h2 : s ≠ "..") :
    check (.str s) = s := by
  unfold check pyStr
  simp only [if_neg h2, if_neg h1]
  exact quotePlus_id s h

theorem legal_ne_encoded_dot (s : String) (h : legalId s) :
    s ≠ "%252E" ∧ s ≠ "%252E%252E" := by
  constructor
  · intro e; subst e; exact absurd h (by decide)
  · intro e; subst e; exact absurd h (by decide)

theorem tag_path_none_eq (ns repo : PyVal) :
    tag_path ns repo none = repository_path (.str (check ns)) (.str (check repo)) :=
  rfl

theorem tag_path_some_eq (ns repo t : PyVal) :
    tag_path ns repo (some t) =
      (if check t = ""
        then repository_path (.str (check ns)) (.str (check repo))
        else repository_path (.str (check ns)) (.str (check repo))
          ++ "/tag_" ++ check t) :=
  rfl

theorem fetch_pos (env : List String) (st : String → Option String) (name : String)
    (h : env.contains name = true) :
    fetch env st name =
      { result := .ok name
        state := fun m => if m = name then some name else st m
        assignments := [(name, name)] } := by
  unfold fetch
  rw [h]
  simp

theorem fetch_neg (env : List String) (st : String → Option String) (name : String)
    (h : env.contains name = false) :
    fetch env st name =
      { result := .error (.notImplemented (fetchErrorMsg env name))
        state := st
        assignments := [] } := by
  unfold fetch
  rw [h]
  simp

theorem leadsB_append (l t : List Char) : leadsB l (l ++ t) = true := by
  induction l with
  | nil => rfl
  | cons c cs ih => simp [leadsB, ih]

theorem strictPrefixB_append (a t : String) (h : t.data ≠ []) :
    strictPrefixB a (a ++ t) = true := by
  unfold strictPrefixB
  rw [data_append, leadsB_append]
  have hp : 0 < t.data.length := List.length_pos.mpr h
  simp only [Bool.true_and, decide_eq_true_eq, List.length_append]
  omega

/-! ## Claim C1 -/

/-- Claim C1 (code bug): `image_exists` returns the presence of the
in-progress marker path, the opposite of the specified behaviour.  For
image `abc123` with the marker absent and all underlying content present,
the code reports the image as not present; with only the marker present,
it reports the image as present. -/
theorem image_exists_tracks_marker_presence :
    image_exists markerClearedStore (.str "abc123") = false ∧
    markerClearedStore (image_mark_path (.str "abc123")) = false ∧
    markerClearedStore (image_layer_path (.str "abc123")) = true ∧
    markerClearedStore (image_json_path (.str "abc123")) = true ∧
    image_exists markerOnlyStore (.str "abc123") = true := by
  decide

/-! ## Claim C2 -/

/-- Claim C2 counterexample: the outputs of `check` for the literal inputs
`.` and `..` are not the fixed escape tokens `%2E` and `%2E%2E`; they are
the results of percent-encoding those tokens once more. -/
theorem check_dot_further_encoded :
    check (.str ".") ≠ "%2E" ∧ check (.str "..") ≠ "%2E%2E" ∧
    check (.str ".") = quote_plus "%2E" ∧ check (.str "..") = quote_plus "%2E%2E" := by
  decide

/-- Claim C2 (amended): `check` stringifies, substitutes the fixed escape
tokens for the literal `.` and `..`, and then percent-encodes the
resulting value, so any other value is percent-encoded directly while the
outputs for `.` and `..` are the percent-encodings of the fixed tokens. -/
theorem check_substitutes_then_encodes (s : String) (h1 : s ≠ ".") (h2 : s ≠ "..") :
    check (.str s) = quote_plus s ∧
    check (.str ".") = "%252E" ∧ check (.str "..") = "%252E%252E" := by
  refine ⟨?_, by decide, by decide⟩
  unfold check pyStr
  simp only [if_neg h2, if_neg h1]

/-- Witness for the amended claim C2 at the concrete input `layer9`. -/
theorem check_substitutes_then_encodes_witness :
    ("layer9" : String) ≠ "." ∧ ("layer9" : String) ≠ ".." ∧
    (check (.str "layer9") = quote_plus "layer9" ∧
     check (.str ".") = "%252E" ∧ check (.str "..") = "%252E%252E") :=
  ⟨by decide, by decide, check_substitutes_then_encodes "layer9" (by decide) (by decide)⟩

/-! ## Claim C3 -/

/-- Claim C3: on the legal identifier alphabet (the always-safe path
characters), `check` is deterministic and injective: two legal raw inputs
have equal encodings exactly when they are equal. -/
theorem check_deterministic_injective (s₁ s₂ : String)
    (h₁ : legalId s₁) (h₂ : legalId s₂) :
    check (.str s₁) = check (.str s₂) ↔ s₁ = s₂ := by
  constructor
  · intro h
    by_cases e11 : s₁ = "."
    · by_cases e21 : s₂ = "."
      · rw [e11, e21]
      · by_cases e22 : s₂ = ".."
        · rw [e11, e22] at h
          exact absurd h (by decide)
        · rw [e11] at h
          rw [check_eq_self s₂ h₂ e21 e22] at h
          have hdot : check (.str ".") = "%252E" := by decide
          rw [hdot] at h
          exact absurd h.symm (legal_ne_encoded_dot s₂ h₂).1
    · by_cases e12 : s₁ = ".."
      · by_cases e21 : s₂ = "."
        · rw [e12, e21] at h
          exact absurd h (by decide)
        · by_cases e22 : s₂ = ".."
          · rw [e12, e22]
          · rw [e12] at h
            rw [check_eq_self s₂ h₂ e21 e22] at h
            have hdots : check (.str "..") = "%252E%252E" := by decide
            rw [hdots] at h
            exact absurd h.symm (legal_ne_encoded_dot s₂ h₂).2
      · rw [check_eq_self s₁ h₁ e11 e12] at h
        by_cases e21 : s₂ = "."
        · rw [e21] at h
          have hdot : check (.str ".") = "%252E" := by decide
          rw [hdot] at h
          exact absurd h (legal_ne_encoded_dot s₁ h₁).1
        · by_cases e22 : s₂ = ".."
          · rw [e22] at h
            have hdots : check (.str "..") = "%252E%252E" := by decide
            rw [hdots] at h
            exact absurd h (legal_ne_encoded_dot s₁ h₁).2
          · rw [check_eq_self s₂ h₂ e21 e22] at h
            exact h
  · intro h
    rw [h]

/-- Witness for claim C3 at the concrete legal identifiers `abc12` and
`abd12`. -/
theorem check_deterministic_injective_witness :
    legalId "abc12" ∧ legalId "abd12" ∧
    (check (.str "abc12") = check (.str "abd12") ↔ ("abc12" : String) = "abd12") :=
  ⟨by decide, by decide,
    check_deterministic_injective "abc12" "abd12" (by decide) (by decide)⟩

/-! ## Claim C4 -/

/-- Claim C4 counterexample: for the caller-supplied namespace `.`, the
repository metadata path differs from the template with each segment
sanitized exactly once, because the decorated helper forwards the already
checked namespace into the decorated `_repository_path`, which checks it a
second time. -/
theorem repository_json_path_not_sanitized_once :
    repository_json_path (.str ".") (.str "r") ≠
      "repositories/" ++ check (.str ".") ++ "/" ++ check (.str "r") ++ "/json" := by
  decide

/-- Claim C4 (amended): every helper returns exactly its template from the
path-format contract with the literal segment names unsanitized, but in
the repository-level helpers the namespace and repository segments pass
through the sanitizer twice (once in the helper decorator and once more in
the decorated `_repository_path` they call), while tag names and image
ids pass through exactly once. -/
theorem path_helpers_match_templates (ns repo image tag : PyVal) :
    images_list_path ns repo =
      "repositories/" ++ checkTwice ns ++ "/" ++ checkTwice repo ++ "/_images_list" ∧
    repository_json_path ns repo =
      "repositories/" ++ checkTwice ns ++ "/" ++ checkTwice repo ++ "/json" ∧
    repository_tag_json_path ns repo tag =
      "repositories/" ++ checkTwice ns ++ "/" ++ checkTwice repo
        ++ "/tag" ++ check tag ++ "_json" ∧
    index_images_path ns repo =
      "repositories/" ++ checkTwice ns ++ "/" ++ checkTwice repo ++ "/_index_images" ∧
    private_flag_path ns repo =
      "repositories/" ++ checkTwice ns ++ "/" ++ checkTwice repo ++ "/_private" ∧
    tag_path ns repo none = "repositories/" ++ checkTwice ns ++ "/" ++ checkTwice repo ∧
    tag_path ns repo (some tag) =
      (if check tag = ""
        then "repositories/" ++ checkTwice ns ++ "/" ++ checkTwice repo
        else "repositories/" ++ checkTwice ns ++ "/" ++ checkTwice repo
          ++ "/tag_" ++ check tag) ∧
    image_json_path image = "images/" ++ check image ++ "/json" ∧
    image_mark_path image = "images/" ++ check image ++ "/_inprogress" ∧
    image_checksum_path image = "images/" ++ check image ++ "/_checksum" ∧
    image_layer_path image = "images/" ++ check image ++ "/layer" ∧
    image_ancestry_path image = "images/" ++ check image ++ "/ancestry" ∧
    image_files_path image = "images/" ++ check image ++ "/_files" ∧
    image_diff_path image = "images/" ++ check image ++ "/_diff" := by
  refine ⟨?_, ?_, ?_, ?_, ?_, ?_, ?_, rfl, rfl, rfl, rfl, rfl, rfl, rfl⟩ <;>
    simp [images_list_path, repository_json_path, repository_tag_json_path,
      index_images_path, private_flag_path, tag_path, repository_path, checkTwice,
      append_assoc_str]

/-! ## Claim C5 -/

/-- Claim C5: fetching a backend name that resolves to no installed driver
module fails with a NotImplemented error whose message contains the
rendering of the list returned by `available()`. -/
theorem fetch_unknown_reports_available (env : List String)
    (st : String → Option String) (name : String) (h : env.contains name = false) :
    ∃ msg, (fetch env st name).result = .error (.notImplemented msg) ∧
      ∃ before after, msg = before ++ reprStrList (available env) ++ after := by
  refine ⟨fetchErrorMsg env name, ?_, ?_⟩
  · rw [fetch_neg env st name h]
  · refine ⟨"You requested storage driver docker_registry.drivers." ++ name
      ++ "\nwhich is not installed. Try `pip install docker-registry-driver-" ++ name
      ++ "`\nor check your configuration. The following are currently\navailable on your system: ",
      ". Exception was: " ++ importErrorText name, ?_⟩
    simp [fetchErrorMsg, append_assoc_str]

/-- Witness for claim C5: fetching the uninstalled backend `swift` from an
environment offering only `file`. -/
theorem fetch_unknown_reports_available_witness :
    (["file"].contains "swift") = false ∧
    ∃ msg, (fetch ["file"] (fun _ => none) "swift").result = .error (.notImplemented msg) ∧
      ∃ before after, msg = before ++ reprStrList (available ["file"]) ++ after :=
  ⟨by decide, fetch_unknown_reports_available ["file"] (fun _ => none) "swift" (by decide)⟩

/-! ## Claim C6 -/

/-- Claim C6 counterexample: with the tag name explicitly given as `None`,
`tag_path` is not a strict prefix of the `latest` tag path, because the
sanitizer stringifies the explicit `None` into the segment `tag_None`. -/
theorem tag_path_none_not_strict_prefix :
    strictPrefixB (tag_path (.str "lib") (.str "app") (some .pynone))
      (tag_path (.str "lib") (.str "app") (some (.str "latest"))) = false := by
  decide

/-- Claim C6 (amended): for all namespace and repository values,
`tag_path` with the tag name omitted (equivalently, passed as the empty
string, but not as an explicit `None`) is a strict prefix of the path of
tag `latest`. -/
theorem tag_path_omitted_strict_prefix_latest (ns repo : PyVal) :
    strictPrefixB (tag_path ns repo none)
      (tag_path ns repo (some (.str "latest"))) = true := by
  have hl : check (.str "latest") = "latest" := by decide
  rw [tag_path_none_eq, tag_path_some_eq, hl]
  rw [if_neg (by decide : ¬("latest" : String) = "")]
  rw [append_assoc_str]
  exact strictPrefixB_append _ ("/tag_" ++ "latest") (by decide)

/-! ## Claim C8 -/

/-- Claim C8 counterexample: a second successful `fetch` of the same name
executes the binding assignment again (the assignment list of the second
call is not empty). -/
theorem fetch_repeats_binding_assignment :
    (fetch ["file"] (fetch ["file"] (fun _ => none) "file").state "file").assignments
      ≠ [] := by
  decide

/-- Claim C8 (amended): `fetch` executes the binding assignment
`module.Storage.scheme = name` on every successful call, but the
assignment is idempotent: after a first successful fetch of a name, a
repeated fetch leaves the binding state (and the returned class)
unchanged, with the scheme bound to the name. -/
theorem fetch_binding_idempotent (env : List String) (st : String → Option String)
    (name : String) (h : env.contains name = true) :
    (fetch env (fetch env st name).state name).state = (fetch env st name).state ∧
    (fetch env (fetch env st name).state name).result = (fetch env st name).result ∧
    (fetch env st name).state name = some name := by
  rw [fetch_pos env st name h, fetch_pos env _ name h]
  refine ⟨?_, rfl, ?_⟩
  · funext m
    by_cases hm : m = name <;> simp [hm]
  · simp

/-- Witness for the amended claim C8: two fetches of the installed driver
`file`. -/
theorem fetch_binding_idempotent_witness :
    (["file"].contains "file") = true ∧
    ((fetch ["file"] (fetch ["file"] (fun _ => none) "file").state "file").state
        = (fetch ["file"] (fun _ => none) "file").state ∧
      (fetch ["file"] (fetch ["file"] (fun _ => none) "file").state "file").result
        = (fetch ["file"] (fun _ => none) "file").result ∧
      (fetch ["file"] (fun _ => none) "file").state "file" = some "file") :=
  ⟨by decide, fetch_binding_idempotent ["file"] (fun _ => none) "file" (by decide)⟩

/-! ## Claim C9 -/

/-- Claim C9: the enumeration helpers locally recover from NotFound on
their containers: a missing images root or repositories root yields the
empty sequence, and a missing individual namespace is skipped while the
others still contribute. -/
theorem iterate_recovers_from_notFound {σ : Type}
    (listDir : σ → Option String → Except DriverError (List String)) (st : σ) :
    (listDir st (some "images") = .error .notFound →
      iterate_images listDir st = .ok []) ∧
    (listDir st (some "repositories") = .error .notFound →
      iterate_repositories listDir st = .ok []) ∧
    (∀ ns₁ ns₂ repos, listDir st (some "repositories") = .ok [ns₁, ns₂] →
      listDir st (some ("repositories/" ++ ns₁)) = .error .notFound →
      listDir st (some ("repositories/" ++ ns₂)) = .ok repos →
      iterate_repositories listDir st = .ok (repos.map (fun r => (ns₂, r)))) := by
  refine ⟨?_, ?_, ?_⟩
  · intro h
    simp [iterate_images, h]
  · intro h
    simp [iterate_repositories, h]
  · intro ns₁ ns₂ repos hroot h₁ h₂
    simp [iterate_repositories, hroot, h₁, h₂]

/-- Witness for claim C9: a backend with no images root, a repositories
root that lists a never-created namespace next to a populated one. -/
theorem iterate_recovers_from_notFound_witness :
    iterate_images twoNamespaceListDir () = .ok [] ∧
    iterate_repositories twoNamespaceListDir () = .ok [("nshere", "app")] := by
  refine ⟨(iterate_recovers_from_notFound twoNamespaceListDir ()).1 rfl, ?_⟩
  have h := (iterate_recovers_from_notFound twoNamespaceListDir ()).2.2
    "nsgone" "nshere" ["app"] rfl rfl rfl
  simpa using h

/-! ## Claim C10 -/

/-- Claim C10: an explicit empty tag name behaves like an omitted tag name
(both give the repository root), while an explicit `None` is stringified
by the sanitizer to `None` before the emptiness test and therefore yields
the per-tag path `tag_None`. -/
theorem tag_path_empty_vs_explicit_none (ns repo : PyVal) :
    tag_path ns repo (some (.str "")) = tag_path ns repo none ∧
    tag_path ns repo none = repository_path (.str (check ns)) (.str (check repo)) ∧
    tag_path ns repo (some .pynone) = tag_path ns repo none ++ "/tag_None" := by
  have hempty : check (.str "") = "" := by decide
  have hnone : check .pynone = "None" := by decide
  refine ⟨?_, rfl, ?_⟩
  · rw [tag_path_some_eq, tag_path_none_eq, hempty]
    simp
  · rw [tag_path_some_eq, tag_path_none_eq, hnone]
    rw [if_neg (by decide : ¬("None" : String) = "")]
    rw [append_assoc_str]
    rfl


/-! ## UTF-8 round-trip lemmas -/

theorem char_valid_nat (c : Char) :
    c.toNat < 0xd800 ∨ (0xdfff < c.toNat ∧ c.toNat < 0x110000) := by
  have h := c.valid
  have he : c.toNat = c.val.toNat := rfl
  rw [he]
  rcases h with h | h
  · exact Or.inl h
  · exact Or.inr ⟨h.1, h.2⟩

theorem utf8Cont_true (b : Nat) (h : 0x80 ≤ b ∧ b < 0xC0) : utf8Cont b = true := by
  simp only [utf8Cont, Bool.and_eq_true, decide_eq_true_eq]
  omega

theorem utf8DecodeOne_encodeChar (c : Char) (rest : List Nat) :
    utf8DecodeOne (utf8EncodeChar c ++ rest) = some (c, rest) := by
  have hv := char_valid_nat c
  by_cases h1 : c.toNat < 0x80
  · have he : utf8EncodeChar c = [c.toNat] := by
      unfold utf8EncodeChar
      rw [if_pos h1]
    rw [he]
    show utf8DecodeOne (c.toNat :: rest) = _
    simp only [utf8DecodeOne]
    rw [if_pos h1, Char.ofNat_toNat]
  · by_cases h2 : c.toNat < 0x800
    · have he : utf8EncodeChar c = [0xC0 + c.toNat / 64, 0x80 + c.toNat % 64] := by
        unfold utf8EncodeChar
        rw [if_neg h1, if_pos h2]
      rw [he]
      show utf8DecodeOne ((0xC0 + c.toNat / 64) :: (0x80 + c.toNat % 64) :: rest) = _
      simp only [utf8DecodeOne]
      rw [if_neg (by omega), if_neg (by omega),
        if_pos (by omega : 0xC0 + c.toNat / 64 < 0xE0)]
      rw [utf8DecodeTwo, if_pos (utf8Cont_true _ (by omega))]
      have harith : (0xC0 + c.toNat / 64 - 0xC0) * 64 + (0x80 + c.toNat % 64 - 0x80)
          = c.toNat := by omega
      rw [harith, Char.ofNat_toNat]
    · by_cases h3 : c.toNat < 0x10000
      · have he : utf8EncodeChar c =
            [0xE0 + c.toNat / 4096, 0x80 + c.toNat / 64 % 64, 0x80 + c.toNat % 64] := by
          unfold utf8EncodeChar
          rw [if_neg h1, if_neg h2, if_pos h3]
        rw [he]
        show utf8DecodeOne ((0xE0 + c.toNat / 4096) :: (0x80 + c.toNat / 64 % 64)
          :: (0x80 + c.toNat % 64) :: rest) = _
        simp only [utf8DecodeOne]
        rw [if_neg (by omega), if_neg (by omega), if_neg (by omega),
          if_pos (by omega : 0xE0 + c.toNat / 4096 < 0xF0)]
        rw [utf8DecodeThree]
        rw [if_pos (by rw [utf8Cont_true _ (by omega), utf8Cont_true _ (by omega)]; rfl)]
        have harith : (0xE0 + c.toNat / 4096 - 0xE0) * 4096
            + (0x80 + c.toNat / 64 % 64 - 0x80) * 64
            + (0x80 + c.toNat % 64 - 0x80) = c.toNat := by omega
        rw [harith, Char.ofNat_toNat]
      · have he : utf8EncodeChar c =
            [0xF0 + c.toNat / 262144, 0x80 + c.toNat / 4096 % 64,
              0x80 + c.toNat / 64 % 64, 0x80 + c.toNat % 64] := by
          unfold utf8EncodeChar
          rw [if_neg h1, if_neg h2, if_neg h3]
        rw [he]
        show utf8DecodeOne ((0xF0 + c.toNat / 262144) :: (0x80 + c.toNat / 4096 % 64)
          :: (0x80 + c.toNat / 64 % 64) :: (0x80 + c.toNat % 64) :: rest) = _
        simp only [utf8DecodeOne]
        rw [if_neg (by omega), if_neg (by omega), if_neg (by omega), if_neg (by omega),
          if_pos (by omega : 0xF0 + c.toNat / 262144 < 0xF8)]
        rw [utf8DecodeFour]
        rw [if_pos (by rw [utf8Cont_true _ (by omega), utf8Cont_true _ (by omega),
          utf8Cont_true _ (by omega)]; rfl)]
        have harith : (0xF0 + c.toNat / 262144 - 0xF0) * 262144
            + (0x80 + c.toNat / 4096 % 64 - 0x80) * 4096
            + (0x80 + c.toNat / 64 % 64 - 0x80) * 64
            + (0x80 + c.toNat % 64 - 0x80) = c.toNat := by omega
        rw [harith, Char.ofNat_toNat]

theorem utf8EncodeChar_shape (c : Char) : ∃ e t, utf8EncodeChar c = e :: t := by
  simp only [utf8EncodeChar]
  split_ifs <;> exact ⟨_, _, rfl⟩

theorem utf8DecodeAux_nil (fuel : Nat) : utf8DecodeAux fuel [] = some [] := by
  cases fuel <;> rfl

theorem utf8DecodeAux_encode (l : List Char) (fuel : Nat) (h : l.length ≤ fuel) :
    utf8DecodeAux fuel ((l.map utf8EncodeChar).flatten) = some l := by
  induction l generalizing fuel with
  | nil => exact utf8DecodeAux_nil fuel
  | cons c cs ih =>
    cases fuel with
    | zero => simp at h
    | succ f =>
      simp only [List.length_cons] at h
      have hle : cs.length ≤ f := by omega
      simp only [List.map_cons, List.flatten_cons]
      obtain ⟨e, t, he⟩ := utf8EncodeChar_shape c
      rw [he, List.cons_append]
      rw [utf8DecodeAux]
      rw [← List.cons_append, ← he, utf8DecodeOne_encodeChar]
      simp [ih f hle]

theorem length_le_flatten_encode (l : List Char) :
    l.length ≤ ((l.map utf8EncodeChar).flatten).length := by
  induction l with
  | nil => simp
  | cons c cs ih =>
    simp only [List.map_cons, List.flatten_cons, List.length_cons, List.length_append]
    obtain ⟨e, t, he⟩ := utf8EncodeChar_shape c
    rw [he]
    simp only [List.length_cons]
    omega

theorem utf8Decode_utf8Encode (s : String) :
    utf8Decode (utf8Encode s) = some s.data := by
  unfold utf8Decode utf8Encode
  exact utf8DecodeAux_encode s.data _ (length_le_flatten_encode s.data)

/-! ## Decimal number round-trip lemmas -/

theorem digitChar_isDigit (d : Nat) (h : d < 10) : (digitChar d).isDigit = true := by
  interval_cases d <;> decide

theorem digitChar_toNat (d : Nat) (h : d < 10) : (digitChar d).toNat = 48 + d := by
  interval_cases d <;> decide

theorem isDigit_ne (c d : Char) (hc : c.isDigit = true) (hd : d.isDigit = false) :
    ¬ c = d := by
  intro e
  rw [e, hd] at hc
  cases hc

theorem natChars_shape (n : Nat) :
    ∃ e t, natChars n = e :: t ∧ e.isDigit = true := by
  induction n using Nat.strong_induction_on with
  | _ n ih =>
    by_cases h : n < 10
    · rw [natChars, if_pos h]
      exact ⟨digitChar n, [], rfl, digitChar_isDigit n h⟩
    · rw [natChars, if_neg h]
      obtain ⟨e, t, heq, hd⟩ := ih (n / 10) (Nat.div_lt_self (by omega) (by omega))
      exact ⟨e, t ++ [digitChar (n % 10)], by rw [heq]; rfl, hd⟩

theorem parseNatAux_natChars (n : Nat) :
    ∀ acc rest, parseNatAux acc (natChars n ++ rest)
      = parseNatAux (acc * 10 ^ numDigits n + n) rest := by
  induction n using Nat.strong_induction_on with
  | _ n ih =>
    intro acc rest
    by_cases h : n < 10
    · rw [natChars, if_pos h, numDigits, if_pos h]
      show parseNatAux acc (digitChar n :: rest) = _
      rw [parseNatAux, if_pos (digitChar_isDigit n h), digitChar_toNat n h]
      have : acc * 10 + (48 + n - 48) = acc * 10 ^ 1 + n := by ring_nf; omega
      rw [this]
    · rw [natChars, if_neg h, numDigits, if_neg h]
      rw [List.append_assoc, List.singleton_append]
      rw [ih (n / 10) (Nat.div_lt_self (by omega) (by omega))]
      rw [parseNatAux, if_pos (digitChar_isDigit (n % 10) (by omega)),
        digitChar_toNat (n % 10) (by omega)]
      have heq : (acc * 10 ^ numDigits (n / 10) + n / 10) * 10 + (48 + n % 10 - 48)
          = acc * 10 ^ (numDigits (n / 10) + 1) + n := by
        have hm := Nat.div_add_mod n 10
        have hpow : (10 : Nat) ^ (numDigits (n / 10) + 1) = 10 ^ numDigits (n / 10) * 10 :=
          pow_succ 10 (numDigits (n / 10))
        rw [hpow]
        have : (acc * 10 ^ numDigits (n / 10) + n / 10) * 10 + (48 + n % 10 - 48)
            = acc * (10 ^ numDigits (n / 10) * 10) + (n / 10 * 10 + n % 10) := by
          ring_nf
          omega
        rw [this]
        omega
      rw [heq]

theorem parseNatAux_stop (acc : Nat) (rest : List Char) (h : nonDigitHead rest) :
    parseNatAux acc rest = (acc, rest) := by
  cases rest with
  | nil => rfl
  | cons d r =>
    rw [parseNatAux, if_neg]
    rw [h d r rfl]
    simp

theorem parseNat_natChars (n : Nat) (rest : List Char) (h : nonDigitHead rest) :
    parseNatAux 0 (natChars n ++ rest) = (n, rest) := by
  rw [parseNatAux_natChars n 0 rest]
  simp only [Nat.zero_mul, Nat.zero_add]
  exact parseNatAux_stop n rest h

/-! ## JSON string escape round-trip lemmas -/

theorem hexDigitChar_hexVal (d : Nat) (h : d < 16) :
    hexVal (hexDigitChar d) = some d := by
  interval_cases d <;> decide

theorem parseStrAux_quote (f : Nat) (X : List Char) :
    parseStrAux (f + 1) ('\"' :: X) = some ([], X) := by
  rw [parseStrAux, if_pos rfl]

theorem parseStrAux_backslash (f : Nat) (body : List Char) (e : Char) (Y : List Char)
    (hd : escDecode body = some (e, Y)) :
    parseStrAux (f + 1) ('\\' :: body)
      = (parseStrAux f Y).map (fun p => (e :: p.1, p.2)) := by
  rw [parseStrAux, if_neg (by decide), if_pos rfl, hd]

theorem parseStrAux_plain (f : Nat) (c : Char) (X : List Char)
    (h1 : ¬ c = '\"') (h2 : ¬ c = '\\') :
    parseStrAux (f + 1) (c :: X)
      = (parseStrAux f X).map (fun p => (c :: p.1, p.2)) := by
  rw [parseStrAux, if_neg h1, if_neg h2]

theorem parseStrAux_escList (l : List Char) :
    ∀ (fuel : Nat) (rest : List Char), l.length < fuel →
      parseStrAux fuel ((l.map escChar).flatten ++ '\"' :: rest) = some (l, rest) := by
  induction l with
  | nil =>
    intro fuel rest h
    cases fuel with
    | zero => omega
    | succ f =>
      simp only [List.map_nil, List.flatten_nil, List.nil_append]
      exact parseStrAux_quote f rest
  | cons c cs ih =>
    intro fuel rest h
    cases fuel with
    | zero => omega
    | succ f =>
      have hlt : cs.length < f := by
        simp only [List.length_cons] at h
        omega
      have ihr := ih f rest hlt
      simp only [List.map_cons, List.flatten_cons, List.append_assoc]
      by_cases h1 : c = '\"'
      · subst h1
        have hd1 : escDecode ('\"' :: ((cs.map escChar).flatten ++ '\"' :: rest))
            = some ('\"', (cs.map escChar).flatten ++ '\"' :: rest) := rfl
        rw [show escChar '\"' = ['\\', '\"'] from rfl]
        simp only [List.cons_append, List.nil_append]
        rw [parseStrAux_backslash f _ _ _ hd1, ihr]
        rfl
      · by_cases h2 : c = '\\'
        · subst h2
          have hd1 : escDecode ('\\' :: ((cs.map escChar).flatten ++ '\"' :: rest))
              = some ('\\', (cs.map escChar).flatten ++ '\"' :: rest) := rfl
          rw [show escChar '\\' = ['\\', '\\'] from rfl]
          simp only [List.cons_append, List.nil_append]
          rw [parseStrAux_backslash f _ _ _ hd1, ihr]
          rfl
        · by_cases h3 : c = '\n'
          · subst h3
            have hd1 : escDecode ('n' :: ((cs.map escChar).flatten ++ '\"' :: rest))
                = some ('\n', (cs.map escChar).flatten ++ '\"' :: rest) := rfl
            rw [show escChar '\n' = ['\\', 'n'] from rfl]
            simp only [List.cons_append, List.nil_append]
            rw [parseStrAux_backslash f _ _ _ hd1, ihr]
            rfl
          · by_cases h4 : c = '\t'
            · subst h4
              have hd1 : escDecode ('t' :: ((cs.map escChar).flatten ++ '\"' :: rest))
                  = some ('\t', (cs.map escChar).flatten ++ '\"' :: rest) := rfl
              rw [show escChar '\t' = ['\\', 't'] from rfl]
              simp only [List.cons_append, List.nil_append]
              rw [parseStrAux_backslash f _ _ _ hd1, ihr]
              rfl
            · by_cases h5 : c = '\r'
              · subst h5
                have hd1 : escDecode ('r' :: ((cs.map escChar).flatten ++ '\"' :: rest))
                    = some ('\r', (cs.map escChar).flatten ++ '\"' :: rest) := rfl
                rw [show escChar '\r' = ['\\', 'r'] from rfl]
                simp only [List.cons_append, List.nil_append]
                rw [parseStrAux_backslash f _ _ _ hd1, ihr]
                rfl
              · by_cases h6 : c.toNat = 8
                · have hc : Char.ofNat 8 = c := by
                    rw [← h6, Char.ofNat_toNat]
                  have hd1 : escDecode ('b' :: ((cs.map escChar).flatten ++ '\"' :: rest))
                      = some (c, (cs.map escChar).flatten ++ '\"' :: rest) := by
                    rw [← hc]
                    rfl
                  have he : escChar c = ['\\', 'b'] := by
                    simp only [escChar]
                    rw [if_neg h1, if_neg h2, if_neg h3, if_neg h4, if_neg h5, if_pos h6]
                  rw [he]
                  simp only [List.cons_append, List.nil_append]
                  rw [parseStrAux_backslash f _ _ _ hd1, ihr]
                  rfl
                · by_cases h7 : c.toNat = 12
                  · have hc : Char.ofNat 12 = c := by
                      rw [← h7, Char.ofNat_toNat]
                    have hd1 : escDecode ('f' :: ((cs.map escChar).flatten ++ '\"' :: rest))
                        = some (c, (cs.map escChar).flatten ++ '\"' :: rest) := by
                      rw [← hc]
                      rfl
                    have he : escChar c = ['\\', 'f'] := by
                      simp only [escChar]
                      rw [if_neg h1, if_neg h2, if_neg h3, if_neg h4, if_neg h5,
                        if_neg h6, if_pos h7]
                    rw [he]
                    simp only [List.cons_append, List.nil_append]
                    rw [parseStrAux_backslash f _ _ _ hd1, ihr]
                    rfl
                  · by_cases h8 : c.toNat < 0x20
                    · have he : escChar c = ['\\', 'u', '0', '0',
                          hexDigitChar (c.toNat / 16), hexDigitChar (c.toNat % 16)] := by
                        simp only [escChar]
                        rw [if_neg h1, if_neg h2, if_neg h3, if_neg h4, if_neg h5,
                          if_neg h6, if_neg h7, if_pos h8]
                        rfl
                      rw [he]
                      have hv1 : hexVal (hexDigitChar (c.toNat / 16)) = some (c.toNat / 16) :=
                        hexDigitChar_hexVal _ (by omega)
                      have hv2 : hexVal (hexDigitChar (c.toNat % 16)) = some (c.toNat % 16) :=
                        hexDigitChar_hexVal _ (by omega)
                      have harith : Char.ofNat (0 * 4096 + 0 * 256
                            + c.toNat / 16 * 16 + c.toNat % 16) = c := by
                        rw [show 0 * 4096 + 0 * 256 + c.toNat / 16 * 16 + c.toNat % 16
                          = c.toNat from by omega, Char.ofNat_toNat]
                      have hd1 : escDecode ('u' :: '0' :: '0'
                            :: hexDigitChar (c.toNat / 16) :: hexDigitChar (c.toNat % 16)
                            :: ((cs.map escChar).flatten ++ '\"' :: rest))
                          = some (c, (cs.map escChar).flatten ++ '\"' :: rest) := by
                        rw [show escDecode ('u' :: '0' :: '0'
                            :: hexDigitChar (c.toNat / 16) :: hexDigitChar (c.toNat % 16)
                            :: ((cs.map escChar).flatten ++ '\"' :: rest))
                          = (hexVal '0').bind (fun va => (hexVal '0').bind (fun vb =>
                              (hexVal (hexDigitChar (c.toNat / 16))).bind (fun ve =>
                                (hexVal (hexDigitChar (c.toNat % 16))).bind (fun vd =>
                                  some (Char.ofNat (va * 4096 + vb * 256 + ve * 16 + vd),
                                    (cs.map escChar).flatten ++ '\"' :: rest)))))
                          from rfl]
                        rw [show hexVal '0' = some 0 from rfl, hv1, hv2]
                        simp only [Option.bind]
                        rw [harith]
                      simp only [List.cons_append, List.nil_append]
                      rw [parseStrAux_backslash f _ _ _ hd1, ihr]
                      rfl
                    · have he : escChar c = [c] := by
                        simp only [escChar]
                        rw [if_neg h1, if_neg h2, if_neg h3, if_neg h4, if_neg h5,
                          if_neg h6, if_neg h7, if_neg h8]
                      rw [he]
                      simp only [List.cons_append, List.nil_append]
                      rw [parseStrAux_plain f c _ h1 h2, ihr]
                      rfl

theorem escChar_len_pos (c : Char) : 1 ≤ (escChar c).length := by
  simp only [escChar]
  split_ifs <;> simp [uEscape]

theorem length_le_flatten_esc (l : List Char) :
    l.length ≤ ((l.map escChar).flatten).length := by
  induction l with
  | nil => simp
  | cons c cs ih =>
    simp only [List.map_cons, List.flatten_cons, List.length_cons, List.length_append]
    have := escChar_len_pos c
    omega

theorem parseStr_escList (l : List Char) (rest : List Char) :
    parseStr ((l.map escChar).flatten ++ '\"' :: rest) = some (l, rest) := by
  unfold parseStr
  apply parseStrAux_escList
  have := length_le_flatten_esc l
  simp only [List.length_append, List.length_cons]
  omega

/-! ## Serializer evaluation lemmas -/

theorem dumpChars_null : dumpChars .null = ['n', 'u', 'l', 'l'] := by
  rw [dumpChars.eq_def]
  rfl

theorem dumpChars_true : dumpChars (.bool true) = ['t', 'r', 'u', 'e'] := by
  rw [dumpChars.eq_def]
  rfl

theorem dumpChars_false : dumpChars (.bool false) = ['f', 'a', 'l', 's', 'e'] := by
  rw [dumpChars.eq_def]
  rfl

theorem dumpChars_num (n : Int) : dumpChars (.num n) = intChars n := by
  rw [dumpChars.eq_def]

theorem dumpChars_str (s : String) : dumpChars (.str s) = strChars s := by
  rw [dumpChars.eq_def]

theorem dumpChars_arr (xs : List Json) :
    dumpChars (.arr xs) = '[' :: dumpElems xs ++ [']'] := by
  rw [dumpChars.eq_def]

theorem dumpChars_obj (ms : List (String × Json)) :
    dumpChars (.obj ms) = '\x7b' :: dumpMembers ms ++ ['\x7d'] := by
  rw [dumpChars.eq_def]

theorem dumpElems_nil : dumpElems [] = [] := by
  rw [dumpElems.eq_def]

theorem dumpElems_single (x : Json) : dumpElems [x] = dumpChars x := by
  rw [dumpElems.eq_def]

theorem dumpElems_cons (x y : Json) (xs : List Json) :
    dumpElems (x :: y :: xs) = dumpChars x ++ ',' :: ' ' :: dumpElems (y :: xs) := by
  rw [dumpElems.eq_def]

theorem dumpMembers_nil : dumpMembers [] = [] := by
  rw [dumpMembers.eq_def]

theorem dumpMembers_single (k : String) (v : Json) :
    dumpMembers [(k, v)] = strChars k ++ ':' :: ' ' :: dumpChars v := by
  rw [dumpMembers.eq_def]

theorem dumpMembers_cons (k : String) (v : Json) (m : String × Json)
    (ms : List (String × Json)) :
    dumpMembers ((k, v) :: m :: ms)
      = strChars k ++ ':' :: ' ' :: dumpChars v ++ ',' :: ' ' :: dumpMembers (m :: ms) := by
  rw [dumpMembers.eq_def]

theorem jsize_null : jsize .null = 1 := by rw [jsize.eq_def]

theorem jsize_bool (b : Bool) : jsize (.bool b) = 1 := by rw [jsize.eq_def]

theorem jsize_num (n : Int) : jsize (.num n) = 1 := by rw [jsize.eq_def]

theorem jsize_str (s : String) : jsize (.str s) = 1 := by rw [jsize.eq_def]

theorem jsize_arr (xs : List Json) : jsize (.arr xs) = 2 + jsizeList xs := by
  rw [jsize.eq_def]

theorem jsize_obj (ms : List (String × Json)) :
    jsize (.obj ms) = 2 + jsizeMembers ms := by
  rw [jsize.eq_def]

theorem jsizeList_nil : jsizeList [] = 0 := by rw [jsizeList.eq_def]

theorem jsizeList_cons (x : Json) (xs : List Json) :
    jsizeList (x :: xs) = 2 + jsize x + jsizeList xs := by
  rw [jsizeList.eq_def]

theorem jsizeMembers_nil : jsizeMembers [] = 0 := by rw [jsizeMembers.eq_def]

theorem jsizeMembers_cons (k : String) (v : Json) (ms : List (String × Json)) :
    jsizeMembers ((k, v) :: ms) = 3 + jsize v + jsizeMembers ms := by
  rw [jsizeMembers.eq_def]

theorem jsize_pos (j : Json) : 1 ≤ jsize j := by
  cases j with
  | null => rw [jsize_null]
  | bool b => rw [jsize_bool]
  | num n => rw [jsize_num]
  | str s => rw [jsize_str]
  | arr xs => rw [jsize_arr]; omega
  | obj ms => rw [jsize_obj]; omega

/-! ## Value starters, whitespace and digit-head lemmas -/

theorem goodStarter_cases (c : Char) (h : goodStarter c = true) :
    c = 'n' ∨ c = 't' ∨ c = 'f' ∨ c = '\"' ∨ c = '[' ∨ c = '\x7b' ∨ c = '-'
      ∨ c.isDigit = true := by
  have h2 := h
  simp only [goodStarter, Bool.or_eq_true, beq_iff_eq] at h2
  tauto

theorem isWsChar_eq_false (c : Char) (h1 : ¬ c = ' ') (h2 : ¬ c = '\n')
    (h3 : ¬ c = '\t') (h4 : ¬ c = '\r') : isWsChar c = false := by
  simp [isWsChar, h1, h2, h3, h4]

theorem goodStarter_not_ws (c : Char) (h : goodStarter c = true) :
    isWsChar c = false := by
  rcases goodStarter_cases c h with rfl | rfl | rfl | rfl | rfl | rfl | rfl | hd
  · decide
  · decide
  · decide
  · decide
  · decide
  · decide
  · decide
  · exact isWsChar_eq_false c (isDigit_ne c ' ' hd (by decide))
      (isDigit_ne c '\n' hd (by decide)) (isDigit_ne c '\t' hd (by decide))
      (isDigit_ne c '\r' hd (by decide))

theorem goodStarter_not_closing (c : Char) (h : goodStarter c = true) :
    ¬ c = ']' ∧ ¬ c = '\x7d' := by
  rcases goodStarter_cases c h with rfl | rfl | rfl | rfl | rfl | rfl | rfl | hd
  · exact ⟨by decide, by decide⟩
  · exact ⟨by decide, by decide⟩
  · exact ⟨by decide, by decide⟩
  · exact ⟨by decide, by decide⟩
  · exact ⟨by decide, by decide⟩
  · exact ⟨by decide, by decide⟩
  · exact ⟨by decide, by decide⟩
  · exact ⟨isDigit_ne c ']' hd (by decide), isDigit_ne c '\x7d' hd (by decide)⟩

theorem skipWs_not_ws (c : Char) (t : List Char) (h : isWsChar c = false) :
    skipWs (c :: t) = c :: t := by
  rw [skipWs, h]
  simp

theorem skipWs_space (t : List Char) : skipWs (' ' :: t) = skipWs t := by
  rw [skipWs]
  simp [isWsChar]

theorem intChars_shape (n : Int) :
    ∃ e t, intChars n = e :: t ∧ goodStarter e = true := by
  unfold intChars
  by_cases h : n < 0
  · rw [if_pos h]
    exact ⟨'-', _, rfl, by decide⟩
  · rw [if_neg h]
    obtain ⟨e, t, heq, hd⟩ := natChars_shape n.toNat
    exact ⟨e, t, heq, by simp [goodStarter, hd]⟩

theorem dumpChars_starter (j : Json) :
    ∃ e t, dumpChars j = e :: t ∧ goodStarter e = true := by
  cases j with
  | null => exact ⟨'n', _, dumpChars_null, by decide⟩
  | bool b =>
    cases b with
    | true => exact ⟨'t', _, dumpChars_true, by decide⟩
    | false => exact ⟨'f', _, dumpChars_false, by decide⟩
  | num n =>
    obtain ⟨e, t, heq, hst⟩ := intChars_shape n
    exact ⟨e, t, by rw [dumpChars_num, heq], hst⟩
  | str s => exact ⟨'\"', _, dumpChars_str s, by decide⟩
  | arr xs => exact ⟨'[', _, dumpChars_arr xs, by decide⟩
  | obj ms => exact ⟨'\x7b', _, dumpChars_obj ms, by decide⟩

theorem skipWs_dumpChars_append (j : Json) (suffix : List Char) :
    skipWs (dumpChars j ++ suffix) = dumpChars j ++ suffix := by
  obtain ⟨e, t, heq, hst⟩ := dumpChars_starter j
  rw [heq, List.cons_append]
  exact skipWs_not_ws e _ (goodStarter_not_ws e hst)

theorem dumpElems_decomp (x : Json) (xs : List Json) :
    ∃ T, dumpElems (x :: xs) = dumpChars x ++ T := by
  cases xs with
  | nil => exact ⟨[], by rw [dumpElems_single, List.append_nil]⟩
  | cons y ys => exact ⟨_, dumpElems_cons x y ys⟩

theorem skipWs_dumpElems_append (x : Json) (xs : List Json) (suffix : List Char) :
    skipWs (dumpElems (x :: xs) ++ suffix) = dumpElems (x :: xs) ++ suffix := by
  obtain ⟨T, hT⟩ := dumpElems_decomp x xs
  rw [hT, List.append_assoc]
  exact skipWs_dumpChars_append x (T ++ suffix)

theorem strChars_head (k : String) (suffix : List Char) :
    strChars k ++ suffix = '\"' :: ((k.data.map escChar).flatten ++ ['\"'] ++ suffix) := by
  simp [strChars]

theorem dumpMembers_decomp (m : String × Json) (ms : List (String × Json)) :
    ∃ T, dumpMembers (m :: ms) = strChars m.1 ++ T := by
  obtain ⟨k, v⟩ := m
  cases ms with
  | nil => exact ⟨_, dumpMembers_single k v⟩
  | cons m2 ms2 =>
    rw [dumpMembers_cons k v m2 ms2]
    exact ⟨_, by rw [List.append_assoc]⟩

theorem skipWs_dumpMembers_append (m : String × Json) (ms : List (String × Json))
    (suffix : List Char) :
    skipWs (dumpMembers (m :: ms) ++ suffix) = dumpMembers (m :: ms) ++ suffix := by
  obtain ⟨T, hT⟩ := dumpMembers_decomp m ms
  rw [hT, List.append_assoc, strChars_head]
  exact skipWs_not_ws _ _ (by decide)

theorem nonDigitHead_nil : nonDigitHead [] := by
  intro d r e
  simp at e

theorem nonDigitHead_cons (c : Char) (t : List Char) (h : c.isDigit = false) :
    nonDigitHead (c :: t) := by
  intro d r e
  cases e
  exact h

/-! ## Fuel budget bounds -/

theorem strChars_len (k : String) : 2 ≤ (strChars k).length := by
  simp [strChars]

theorem jsize_le_aux (n : Nat) :
    (∀ j : Json, sizeOf j ≤ n → jsize j ≤ 2 * (dumpChars j).length + 1) ∧
    (∀ xs : List Json, sizeOf xs ≤ n → jsizeList xs ≤ 2 * (dumpElems xs).length + 3) ∧
    (∀ ms : List (String × Json), sizeOf ms ≤ n →
      jsizeMembers ms ≤ 2 * (dumpMembers ms).length + 3) := by
  induction n with
  | zero =>
    refine ⟨?_, ?_, ?_⟩
    · intro j hj
      exfalso
      cases j <;> simp at hj
    · intro xs hxs
      exfalso
      cases xs <;> simp at hxs
    · intro ms hms
      exfalso
      cases ms <;> simp at hms
  | succ n ih =>
    obtain ⟨ihJ, ihL, ihM⟩ := ih
    refine ⟨?_, ?_, ?_⟩
    · intro j hj
      cases j with
      | null => rw [jsize_null]; omega
      | bool b => rw [jsize_bool]; omega
      | num m => rw [jsize_num]; omega
      | str s => rw [jsize_str]; omega
      | arr xs =>
        have hx : sizeOf xs ≤ n := by
          simp only [Json.arr.sizeOf_spec] at hj
          omega
        have := ihL xs hx
        rw [jsize_arr, dumpChars_arr]
        simp only [List.length_cons, List.length_append, List.length_singleton]
        omega
      | obj ms =>
        have hx : sizeOf ms ≤ n := by
          simp only [Json.obj.sizeOf_spec] at hj
          omega
        have := ihM ms hx
        rw [jsize_obj, dumpChars_obj]
        simp only [List.length_cons, List.length_append, List.length_singleton]
        omega
    · intro xs hxs
      cases xs with
      | nil => rw [jsizeList_nil]; omega
      | cons x xs2 =>
        have hx : sizeOf x ≤ n := by
          simp only [List.cons.sizeOf_spec] at hxs
          omega
        have hjx := ihJ x hx
        cases xs2 with
        | nil =>
          rw [jsizeList_cons, jsizeList_nil, dumpElems_single]
          omega
        | cons y ys =>
          have hys : sizeOf (y :: ys) ≤ n := by
            simp only [List.cons.sizeOf_spec] at hxs ⊢
            omega
          have := ihL (y :: ys) hys
          rw [jsizeList_cons, dumpElems_cons]
          simp only [List.length_append, List.length_cons]
          omega
    · intro ms hms
      cases ms with
      | nil => rw [jsizeMembers_nil]; omega
      | cons m ms2 =>
        obtain ⟨k, v⟩ := m
        have hv : sizeOf v ≤ n := by
          simp only [List.cons.sizeOf_spec, Prod.mk.sizeOf_spec] at hms
          omega
        have hjv := ihJ v hv
        have hks := strChars_len k
        cases ms2 with
        | nil =>
          rw [jsizeMembers_cons, jsizeMembers_nil, dumpMembers_single]
          simp only [List.length_append, List.length_cons]
          omega
        | cons m2 ms3 =>
          have hms3 : sizeOf (m2 :: ms3) ≤ n := by
            simp only [List.cons.sizeOf_spec] at hms ⊢
            omega
          have := ihM (m2 :: ms3) hms3
          rw [jsizeMembers_cons, dumpMembers_cons]
          simp only [List.length_append, List.length_cons]
          omega

theorem jsize_le (j : Json) : jsize j ≤ 2 * (dumpChars j).length + 1 :=
  (jsize_le_aux (sizeOf j)).1 j le_rfl

/-! ## The parser inverts the serializer -/

theorem parse_dump_round (fuel : Nat) :
    (∀ j rest, jsize j ≤ fuel → nonDigitHead rest →
      parseValue fuel (dumpChars j ++ rest) = some (j, rest)) ∧
    (∀ xs rest, jsizeList xs + 1 ≤ fuel →
      parseArrTail fuel (dumpElems xs ++ ']' :: rest) = some (.arr xs, rest)) ∧
    (∀ xs rest, xs ≠ [] → jsizeList xs ≤ fuel →
      parseElems fuel (dumpElems xs ++ ']' :: rest) = some (xs, rest)) ∧
    (∀ x rest, 1 ≤ fuel → parseElemsSep fuel x (']' :: rest) = some ([x], rest)) ∧
    (∀ x xs rest, xs ≠ [] → jsizeList xs + 1 ≤ fuel →
      parseElemsSep fuel x (',' :: ' ' :: (dumpElems xs ++ ']' :: rest))
        = some (x :: xs, rest)) ∧
    (∀ ms rest, jsizeMembers ms + 1 ≤ fuel →
      parseObjTail fuel (dumpMembers ms ++ '\x7d' :: rest) = some (.obj ms, rest)) ∧
    (∀ ms rest, ms ≠ [] → jsizeMembers ms ≤ fuel →
      parseMembers fuel (dumpMembers ms ++ '\x7d' :: rest) = some (ms, rest)) ∧
    (∀ k v rest, jsize v + 2 ≤ fuel →
      parseMemberColon fuel k (':' :: ' ' :: (dumpChars v ++ '\x7d' :: rest))
        = some ([(k, v)], rest)) ∧
    (∀ k v ms rest, ms ≠ [] → jsize v + jsizeMembers ms + 2 ≤ fuel →
      parseMemberColon fuel k
          (':' :: ' ' :: (dumpChars v ++ ',' :: ' ' :: (dumpMembers ms ++ '\x7d' :: rest)))
        = some ((k, v) :: ms, rest)) ∧
    (∀ k v rest, 1 ≤ fuel →
      parseMembersSep fuel k v ('\x7d' :: rest) = some ([(k, v)], rest)) ∧
    (∀ k v ms rest, ms ≠ [] → jsizeMembers ms + 1 ≤ fuel →
      parseMembersSep fuel k v (',' :: ' ' :: (dumpMembers ms ++ '\x7d' :: rest))
        = some ((k, v) :: ms, rest)) := by
  induction fuel with
  | zero =>
    refine ⟨?_, ?_, ?_, ?_, ?_, ?_, ?_, ?_, ?_, ?_, ?_⟩
    · intro j rest hj hr
      have := jsize_pos j
      omega
    · intro xs rest hs
      omega
    · intro xs rest hne hs
      exfalso
      cases xs with
      | nil => exact hne rfl
      | cons x xs2 =>
        rw [jsizeList_cons] at hs
        omega
    · intro x rest h1
      omega
    · intro x xs rest hne hs
      omega
    · intro ms rest hs
      omega
    · intro ms rest hne hs
      exfalso
      cases ms with
      | nil => exact hne rfl
      | cons m ms2 =>
        obtain ⟨k, v⟩ := m
        rw [jsizeMembers_cons] at hs
        omega
    · intro k v rest hs
      omega
    · intro k v ms rest hne hs
      omega
    · intro k v rest h1
      omega
    · intro k v ms rest hne hs
      omega
  | succ fuel ih =>
    obtain ⟨P, A, E, S1, S2, O, M, C1, C2, T1, T2⟩ := ih
    refine ⟨?_, ?_, ?_, ?_, ?_, ?_, ?_, ?_, ?_, ?_, ?_⟩
    · intro j rest hj hr
      cases j with
      | null =>
        rw [dumpChars_null]
        simp only [List.cons_append, List.nil_append]
        rw [parseValue, if_pos rfl]
        rfl
      | bool b =>
        cases b with
        | true =>
          rw [dumpChars_true]
          simp only [List.cons_append, List.nil_append]
          rw [parseValue, if_neg (by decide), if_pos rfl]
          rfl
        | false =>
          rw [dumpChars_false]
          simp only [List.cons_append, List.nil_append]
          rw [parseValue, if_neg (by decide), if_neg (by decide), if_pos rfl]
          rfl
      | num n =>
        rw [dumpChars_num]
        unfold intChars
        by_cases hn : n < 0
        · rw [if_pos hn]
          obtain ⟨e, t, he, hd⟩ := natChars_shape (-n).toNat
          simp only [List.cons_append]
          rw [parseValue, if_neg (by decide), if_neg (by decide), if_neg (by decide),
            if_neg (by decide), if_neg (by decide), if_neg (by decide), if_pos rfl]
          rw [he, List.cons_append, parseNumNeg, if_pos hd]
          rw [← List.cons_append, ← he, parseNat_natChars _ rest hr]
          show some (Json.num (-(((-n).toNat : Nat) : Int)), rest) = some (Json.num n, rest)
          have harith : (-(((-n).toNat : Nat) : Int)) = n := by omega
          rw [harith]
        · rw [if_neg hn]
          obtain ⟨e, t, he, hd⟩ := natChars_shape n.toNat
          rw [he, List.cons_append, parseValue]
          rw [if_neg (isDigit_ne e 'n' hd (by decide)),
            if_neg (isDigit_ne e 't' hd (by decide)),
            if_neg (isDigit_ne e 'f' hd (by decide)),
            if_neg (isDigit_ne e '\"' hd (by decide)),
            if_neg (isDigit_ne e '[' hd (by decide)),
            if_neg (isDigit_ne e '\x7b' hd (by decide)),
            if_neg (isDigit_ne e '-' hd (by decide)),
            if_pos hd]
          rw [← List.cons_append, ← he, parseNat_natChars _ rest hr]
          show some (Json.num ((n.toNat : Nat) : Int), rest) = some (Json.num n, rest)
          have harith : ((n.toNat : Nat) : Int) = n := by omega
          rw [harith]
      | str s =>
        rw [dumpChars_str, strChars]
        simp only [List.cons_append, List.append_assoc, List.singleton_append,
          List.nil_append]
        rw [parseValue, if_neg (by decide), if_neg (by decide), if_neg (by decide),
          if_pos rfl]
        rw [parseStr_escList s.data rest]
        rfl
      | arr xs =>
        rw [dumpChars_arr]
        simp only [List.cons_append, List.append_assoc, List.singleton_append,
          List.nil_append]
        rw [parseValue, if_neg (by decide), if_neg (by decide), if_neg (by decide),
          if_neg (by decide), if_pos rfl]
        have hsw : skipWs (dumpElems xs ++ ']' :: rest) = dumpElems xs ++ ']' :: rest := by
          cases xs with
          | nil =>
            rw [dumpElems_nil, List.nil_append]
            exact skipWs_not_ws _ _ (by decide)
          | cons x xs2 => exact skipWs_dumpElems_append x xs2 _
        rw [hsw]
        apply A
        rw [jsize_arr] at hj
        omega
      | obj ms =>
        rw [dumpChars_obj]
        simp only [List.cons_append, List.append_assoc, List.singleton_append,
          List.nil_append]
        rw [parseValue, if_neg (by decide), if_neg (by decide), if_neg (by decide),
          if_neg (by decide), if_neg (by decide), if_pos rfl]
        have hsw : skipWs (dumpMembers ms ++ '\x7d' :: rest)
            = dumpMembers ms ++ '\x7d' :: rest := by
          cases ms with
          | nil =>
            rw [dumpMembers_nil, List.nil_append]
            exact skipWs_not_ws _ _ (by decide)
          | cons m ms2 => exact skipWs_dumpMembers_append m ms2 _
        rw [hsw]
        apply O
        rw [jsize_obj] at hj
        omega
    · intro xs rest hs
      cases xs with
      | nil =>
        rw [dumpElems_nil, List.nil_append, parseArrTail, if_pos rfl]
      | cons x xs2 =>
        obtain ⟨T, hT⟩ := dumpElems_decomp x xs2
        obtain ⟨e, t, he, hst⟩ := dumpChars_starter x
        have hshape : dumpElems (x :: xs2) ++ ']' :: rest
            = e :: (t ++ (T ++ ']' :: rest)) := by
          rw [hT, he]
          simp [List.append_assoc]
        rw [hshape, parseArrTail, if_neg (goodStarter_not_closing e hst).1]
        rw [← hshape]
        rw [E (x :: xs2) rest (by simp) (by omega)]
        rfl
    · intro xs rest hne hs
      cases xs with
      | nil => exact absurd rfl hne
      | cons x xs2 =>
        rw [parseElems]
        rw [jsizeList_cons] at hs
        cases xs2 with
        | nil =>
          rw [dumpElems_single]
          rw [P x (']' :: rest) (by omega) (nonDigitHead_cons _ _ (by decide))]
          show parseElemsSep fuel x (skipWs (']' :: rest)) = _
          rw [skipWs_not_ws _ _ (by decide)]
          exact S1 x rest (by omega)
        | cons y ys =>
          rw [dumpElems_cons, List.append_assoc]
          simp only [List.cons_append]
          rw [P x (',' :: ' ' :: (dumpElems (y :: ys) ++ ']' :: rest))
            (by omega) (nonDigitHead_cons _ _ (by decide))]
          show parseElemsSep fuel x
            (skipWs (',' :: ' ' :: (dumpElems (y :: ys) ++ ']' :: rest))) = _
          rw [skipWs_not_ws _ _ (by decide)]
          exact S2 x (y :: ys) rest (by simp) (by omega)
    · intro x rest h1
      cases fuel with
      | zero =>
        rw [parseElemsSep, if_pos rfl]
      | succ f =>
        rw [parseElemsSep, if_pos rfl]
    · intro x xs rest hne hs
      rw [parseElemsSep, if_neg (by decide), if_pos rfl, skipWs_space]
      have hsw : skipWs (dumpElems xs ++ ']' :: rest) = dumpElems xs ++ ']' :: rest := by
        cases xs with
        | nil => exact absurd rfl hne
        | cons y ys => exact skipWs_dumpElems_append y ys _
      rw [hsw, E xs rest hne (by omega)]
      rfl
    · intro ms rest hs
      cases ms with
      | nil =>
        rw [dumpMembers_nil, List.nil_append, parseObjTail, if_pos rfl]
      | cons m ms2 =>
        obtain ⟨T, hT⟩ := dumpMembers_decomp m ms2
        have hshape : dumpMembers (m :: ms2) ++ '\x7d' :: rest
            = '\"' :: ((m.1.data.map escChar).flatten ++ ['\"'] ++ (T ++ '\x7d' :: rest)) := by
          rw [hT, List.append_assoc, strChars_head]
        rw [hshape, parseObjTail, if_neg (by decide)]
        rw [← hshape]
        rw [M (m :: ms2) rest (by simp) (by omega)]
        rfl
    · intro ms rest hne hs
      cases ms with
      | nil => exact absurd rfl hne
      | cons m ms2 =>
        obtain ⟨k, v⟩ := m
        rw [jsizeMembers_cons] at hs
        cases ms2 with
        | nil =>
          rw [dumpMembers_single, List.append_assoc, strChars_head]
          simp only [List.cons_append, List.append_assoc, List.singleton_append,
            List.nil_append]
          rw [parseMembers, if_pos rfl]
          rw [parseStr_escList k.data]
          show parseMemberColon fuel (⟨k.data⟩ : String)
            (skipWs (':' :: ' ' :: (dumpChars v ++ '\x7d' :: rest))) = _
          rw [skipWs_not_ws _ _ (by decide)]
          exact C1 k v rest (by omega)
        | cons m2 ms3 =>
          rw [dumpMembers_cons, List.append_assoc, strChars_head]
          simp only [List.cons_append, List.append_assoc, List.singleton_append,
            List.nil_append]
          rw [parseMembers, if_pos rfl]
          rw [parseStr_escList k.data]
          show parseMemberColon fuel (⟨k.data⟩ : String)
            (skipWs (':' :: ' ' :: (dumpChars v
              ++ ',' :: ' ' :: (dumpMembers (m2 :: ms3) ++ '\x7d' :: rest)))) = _
          rw [skipWs_not_ws _ _ (by decide)]
          exact C2 k v (m2 :: ms3) rest (by simp) (by omega)
    · intro k v rest hs
      rw [parseMemberColon, if_pos rfl, skipWs_space, skipWs_dumpChars_append]
      rw [P v ('\x7d' :: rest) (by omega) (nonDigitHead_cons _ _ (by decide))]
      show parseMembersSep fuel k v (skipWs ('\x7d' :: rest)) = _
      rw [skipWs_not_ws _ _ (by decide)]
      exact T1 k v rest (by have := jsize_pos v; omega)
    · intro k v ms rest hne hs
      rw [parseMemberColon, if_pos rfl, skipWs_space, skipWs_dumpChars_append]
      rw [P v (',' :: ' ' :: (dumpMembers ms ++ '\x7d' :: rest))
        (by omega) (nonDigitHead_cons _ _ (by decide))]
      show parseMembersSep fuel k v
        (skipWs (',' :: ' ' :: (dumpMembers ms ++ '\x7d' :: rest))) = _
      rw [skipWs_not_ws _ _ (by decide)]
      exact T2 k v ms rest hne (by omega)
    · intro k v rest h1
      rw [parseMembersSep, if_pos rfl]
    · intro k v ms rest hne hs
      rw [parseMembersSep, if_neg (by decide), if_pos rfl, skipWs_space]
      have hsw : skipWs (dumpMembers ms ++ '\x7d' :: rest)
          = dumpMembers ms ++ '\x7d' :: rest := by
        cases ms with
        | nil => exact absurd rfl hne
        | cons m ms2 => exact skipWs_dumpMembers_append m ms2 _
      rw [hsw, M ms rest hne (by omega)]
      rfl

theorem json_loads_dumps (j : Json) : json_loads (json_dumps j) = some j := by
  unfold json_loads json_dumps
  show (match parseValue (2 * (dumpChars j).length + 2) (skipWs (dumpChars j)) with
    | some (v, rest) => if skipWs rest = [] then some v else none
    | none => none) = some j
  obtain ⟨e, t, he, hst⟩ := dumpChars_starter j
  have hsw : skipWs (dumpChars j) = dumpChars j := by
    rw [he]
    exact skipWs_not_ws e t (goodStarter_not_ws e hst)
  have hP := (parse_dump_round (2 * (dumpChars j).length + 2)).1 j []
    (by have := jsize_le j; omega) nonDigitHead_nil
  rw [List.append_nil] at hP
  rw [hsw, hP]
  rfl

/-! ## Claim C7 -/

/-- Claim C7: assuming the byte-level `put_content` / `get_content`
primitives round-trip exactly, `put_json` followed by `get_json` at the
same path returns the stored value: `put_json` serializes and stores the
UTF-8 encoding, `get_json` decodes UTF-8 and deserializes, and the two
codec layers invert each other. -/
theorem put_json_get_json_roundtrip {σ : Type} (B : Backend σ)
    (hrt : ∀ st p c, B.get_content (B.put_content st p c) p = some c)
    (st : σ) (p : String) (obj : Json) :
    get_json B (put_json B st p obj) p = some obj := by
  unfold get_json put_json get_unicode put_unicode get_bytes put_bytes
  rw [hrt]
  show (((utf8Decode (utf8Encode (json_dumps obj))).map
    (fun cs => (⟨cs⟩ : String)))).bind json_loads = some obj
  rw [utf8Decode_utf8Encode]
  show json_loads ⟨(json_dumps obj).data⟩ = some obj
  exact json_loads_dumps obj

/-- Witness for claim C7: a concrete association-list backend, storing an
object with an array, a negative number, escapes and a non-trivial string
under a repository metadata path. -/
theorem put_json_get_json_roundtrip_witness :
    get_json listBackend
        (put_json listBackend [] "repositories/lib/app/json"
          (Json.obj [("a", Json.arr [Json.num 1, Json.num (-2)]),
                     ("b", Json.str "x y\n")]))
        "repositories/lib/app/json"
      = some (Json.obj [("a", Json.arr [Json.num 1, Json.num (-2)]),
                        ("b", Json.str "x y\n")]) :=
  put_json_get_json_roundtrip listBackend
    (fun st p c => by simp [listBackend, List.find?]) [] _ _
